import Mathlib

/-!
Verification of the ipol-demorunner core against its source.

The Rust source (src/main.rs, src/execution.rs) is shallowly embedded here:
pure fragments become Lean functions, the stateful parts (the Docker engine,
the git working tree, the staging filesystem) become explicit state passing,
f64 run times are modelled as integer second counts, and fallible code
returns Except.  External engines (Docker, libgit2, chrono, safe-path) appear
as explicit parameters or, where noted, are modelled from the specification.
-/

namespace DemoRunner

/-- Mirrors enum ParamValue of src/main.rs.  The Float variant of the source
carries an f64 that is only ever observed through its Display rendering, so
the embedding carries that rendered decimal text directly. -/
inductive ParamValue where
  | Bool (b : Bool)
  | PosInt (v : Nat)
  | NegInt (v : Int)
  | Float (text : String)
  | Str (s : String)
deriving DecidableEq

/-- Mirrors the Display impl for ParamValue of src/main.rs. -/
def ParamValue.display : ParamValue → String
  | .Bool b => toString b
  | .PosInt v => toString v
  | .NegInt v => toString v
  | .Float text => text
  | .Str s => s

abbrev DemoID := String

abbrev RunKey := String

/-- Mirrors type RunParams = HashMap of String to ParamValue.  A HashMap with
unspecified iteration order is embedded as an association list; the spec
declares the iteration order irrelevant and the keys unique. -/
abbrev RunParams := List (String × ParamValue)

/-- Mirrors const INVALID_NAMES of ToEnvVec::is_valid_param_name in src/main.rs. -/
def INVALID_NAMES : List String :=
  ["HOSTNAME", "PATH", "HOME", "LANG", "TERM", "LD_LIBRARY_PATH", "LD_PRELOAD",
   "PYTHONPATH", "PERLLIB", "RUBYLIB", "CLASSPATH", "NODE_PATH", "IPOL_DEMOID",
   "IPOL_KEY"]

/-- Mirrors ToEnvVec::is_valid_param_name of src/main.rs. -/
def is_valid_param_name (name : String) : Bool :=
  !(INVALID_NAMES.contains name)

/-- Mirrors ToEnvVec::to_env_vec for RunParams of src/main.rs: a vector seeded
with the two IPOL entries, then one push per parameter surviving the
is_valid_param_name filter, formatted as name=value. -/
def to_env_vec (params : RunParams) (demo_id : DemoID) (key : RunKey) : List String :=
  ("IPOL_DEMOID=" ++ demo_id) :: ("IPOL_KEY=" ++ key) ::
    (params.filter (fun p => is_valid_param_name p.1)).map
      (fun p => p.1 ++ "=" ++ p.2.display)

/-- Mirrors enum ExecError of src/main.rs.  The IO and Docker variants carry
the underlying library message; the source constructor named after the io
module is spelled IOErr here. -/
inductive ExecError where
  | NonZeroExitCode (code : Int) (output : String)
  | IOErr (msg : String)
  | Docker (msg : String)
  | Timeout
deriving DecidableEq

/-- Mirrors the thiserror Display derivation on ExecError of src/main.rs. -/
def ExecError.display : ExecError → String
  | .NonZeroExitCode code output =>
      "Non-zero exit code (" ++ toString code ++ "): " ++ output
  | .IOErr msg => msg
  | .Docker msg => msg
  | .Timeout => "IPOLTimeoutError: Execution timeout"

/-- Mirrors struct AlgoInfo of src/main.rs; run_time is an f64 second count in
the source, carried here as an integer second count. -/
structure AlgoInfo where
  error_message : String
  run_time : Option Int
deriving DecidableEq

/-- Mirrors struct ExecAndWaitResponse of src/main.rs. -/
structure ExecAndWaitResponse where
  key : RunKey
  params : RunParams
  status : String
  error : String
  algo_info : AlgoInfo
deriving DecidableEq

/-- Mirrors the envelope construction of the exec_and_wait route handler of
src/main.rs, as a function of the result of exec_and_wait_inner. -/
def exec_and_wait (key : RunKey) (params : RunParams)
    (rep : Except ExecError Int) : ExecAndWaitResponse :=
  match rep with
  | .ok duration =>
      { key := key, params := params, status := "OK", error := "",
        algo_info := { error_message := "", run_time := some duration } }
  | .error err =>
      match err with
      | .Timeout =>
          { key := key, params := params, status := "KO",
            error := "IPOLTimeoutError",
            algo_info := { error_message := ExecError.display err,
                           run_time := none } }
      | _ =>
          { key := key, params := params, status := "KO",
            error := ExecError.display err,
            algo_info := { error_message := ExecError.display err,
                           run_time := none } }

/-- One message of the engine log stream, mirroring bollard LogOutput as
consumed by exec_and_wait_inner; chunk payloads are carried after the lossy
UTF-8 conversion the source applies. -/
inductive LogChunk where
  | stdout (s : String)
  | stderr (s : String)
  | stdin (s : String)
  | console (s : String)
deriving DecidableEq

/-- Mirrors the in-memory output buffer of the log drain loop of
exec_and_wait_inner: stdout and stderr chunks are appended in arrival order,
stdin and console chunks are discarded. -/
def drainOutput (msgs : List LogChunk) : String :=
  msgs.foldl
    (fun acc m =>
      match m with
      | .stdout s => acc ++ s
      | .stderr s => acc ++ s
      | .stdin _ => acc
      | .console _ => acc) ""

/-- Mirrors the state field of the bollard inspect response as read by
exec_and_wait_inner; started_at and finished_at are RFC 3339 strings. -/
structure ContainerState where
  exit_code : Option Int
  started_at : Option String
  finished_at : Option String
deriving DecidableEq

/-- Mirrors the bollard inspect response as read by exec_and_wait_inner. -/
structure InspectResponse where
  state : Option ContainerState
deriving DecidableEq

/-- Mirrors the duration computation of exec_and_wait_inner of src/main.rs:
when both timestamps are present they are parsed (falling back to now on a
parse failure) and subtracted; to_std fails on a negative difference, leaving
the duration unset.  The chrono parser is abstracted as the parse argument. -/
def durationOf (st : ContainerState) (parse : String → Option Int)
    (now : Int) : Option Int :=
  match st.started_at, st.finished_at with
  | some s, some f =>
      let start := (parse s).getD now
      let stop := (parse f).getD now
      if stop - start < 0 then none else some (stop - start)
  | _, _ => none

/-- Mirrors the tail of exec_and_wait_inner of src/main.rs (lines 583 to 601):
classify the inspect response into a non-zero-exit error or a run duration,
defaulting the duration to zero. -/
def classifyInspect (resp : InspectResponse) (output : String)
    (parse : String → Option Int) (now : Int) : Except ExecError Int :=
  match resp.state with
  | none => .ok 0
  | some st =>
      match st.exit_code with
      | some code =>
          if code ≠ 0 then .error (.NonZeroExitCode code output)
          else .ok ((durationOf st parse now).getD 0)
      | none => .ok ((durationOf st parse now).getD 0)

/-- A Docker image reference repo:tag, modelled as the pair of its repository
name and its tag; the engine guarantees neither component contains a colon,
so the pair determines the rendered reference string. -/
abbrev ImageRef := String × String

/-- One image known to the engine, as returned by list_images: its id and its
list of repo:tag references. -/
structure DockerImage where
  id : String
  repo_tags : List ImageRef
deriving DecidableEq

/-- Mirrors enum CompilationError of src/main.rs; the io variant is spelled
IOErr here. -/
inductive CompilationError where
  | BuildError (log : String)
  | IOErr (msg : String)
  | Docker (msg : String)
  | Git (msg : String)
  | MissingDockerfile (path : String)
deriving DecidableEq

/-- The engine calls ensure_compilation_inner performs, recorded as a trace. -/
inductive CAction where
  | listImages
  | appendLog (s : String)
  | buildImage (tag : ImageRef)
  | removeImage (id : String)
  | tagImage (target : ImageRef) (repo : ImageRef) (tag : String)
deriving DecidableEq

/-- One message of the build event stream, mirroring bollard BuildInfo as
consumed by ensure_compilation_inner. -/
structure BuildMsg where
  stream : Option String
  error : Option String
deriving DecidableEq

/-- The list_images reference filter of the Docker engine: an image matches
the repository reference name when one of its tags lives in that repository. -/
def matchesReference (name : String) (img : DockerImage) : Bool :=
  img.repo_tags.any (fun t => t.1 == name)

/-- Mirrors the build log accumulation of ensure_compilation_inner: per
message, the stream payload then the error payload, in arrival order. -/
def transcriptOf (msgs : List BuildMsg) : String :=
  msgs.foldl (fun acc m => acc ++ m.stream.getD "" ++ m.error.getD "") ""

/-- Mirrors the errored flag of ensure_compilation_inner: set when any build
message carries an error payload. -/
def buildErrored (msgs : List BuildMsg) : Bool :=
  msgs.any (fun m => m.error.isSome)

/-- Result, final engine image list and engine-call trace of one run of the
compilation pipeline. -/
structure CompilationOutcome where
  result : Except CompilationError Unit
  images : List DockerImage
  actions : List CAction

/-- Mirrors the early-exit guard of ensure_compilation_inner: some image of
the repository already carries the revision tag. -/
def tagExists (images : List DockerImage) (name git_rev : String) : Bool :=
  (images.filter (matchesReference name)).any
    (fun img => img.repo_tags.contains (name, git_rev))

/-- The image a successful build adds to the engine: a fresh id carrying the
revision tag. -/
def imageBuilt (name git_rev newId : String) : DockerImage :=
  ⟨newId, [(name, git_rev)]⟩

/-- Mirrors the GC loop of ensure_compilation_inner: force-removing an image
by id deletes the image with all its tags. -/
def removeListed (images current : List DockerImage) : List DockerImage :=
  images.filter (fun img => !(current.any (fun c => c.id == img.id)))

/-- Mirrors the final tag_image call of ensure_compilation_inner: the image
carrying the revision tag additionally receives the latest tag.  The Docker
tag endpoint normalizes its repo argument by dropping the tag component,
which is why the latest reference lands in the plain repository even though
the source passes the full revision reference as repo. -/
def retagLatest (images : List DockerImage) (name git_rev : String) :
    List DockerImage :=
  images.map (fun img =>
    if img.repo_tags.contains (name, git_rev) then
      { img with repo_tags := img.repo_tags ++ [(name, "latest")] }
    else img)

/-- Mirrors ensure_compilation_inner of src/main.rs from the point after
prepare_git returned git_rev, over an explicit engine state: check the
dockerfile, list the images of the repository pfx ++ demo_id, return at once
when the revision tag already exists, otherwise stream the build (the built
image receives the fresh engine id newId), then force-remove the previously
listed images, then retag the revision tag as latest. -/
def ensure_compilation_inner (images : List DockerImage) (pfx demo_id : String)
    (dockerfile : String) (dockerfile_exists : Bool) (git_rev : String)
    (msgs : List BuildMsg) (newId : String) : CompilationOutcome :=
  match dockerfile_exists with
  | false => ⟨.error (.MissingDockerfile dockerfile), images, []⟩
  | true =>
    if tagExists images (pfx ++ demo_id) git_rev then
      ⟨.ok (), images,
        [.listImages,
         .appendLog ("(docker image already exists for commit " ++ git_rev ++ ")")]⟩
    else if buildErrored msgs then
      ⟨.error (.BuildError (transcriptOf msgs)), images,
        [.listImages, .buildImage (pfx ++ demo_id, git_rev)]⟩
    else
      ⟨.ok (),
        retagLatest
          (removeListed (images ++ [imageBuilt (pfx ++ demo_id) git_rev newId])
            (images.filter (matchesReference (pfx ++ demo_id))))
          (pfx ++ demo_id) git_rev,
        [.listImages, .buildImage (pfx ++ demo_id, git_rev)]
          ++ (images.filter (matchesReference (pfx ++ demo_id))).map
              (fun c => .removeImage c.id)
          ++ [.tagImage (pfx ++ demo_id, git_rev) (pfx ++ demo_id, git_rev) "latest"]⟩

/-- The on-disk condition of the compilation source path, as far as
prepare_git observes it: absent, present but not a repository, or a
repository with an origin URL and an optional detached head. -/
inductive PathState where
  | absent
  | nonRepoDir
  | repo (origin : String) (head : Option String)
deriving DecidableEq

/-- The libgit2 engine consumed by prepare_git, abstracted as total
functions: whether a clone of the url succeeds, whether the fetch of master
from the url succeeds, what a revspec resolves to against the fetched
repository of the url, and whether the recursive submodule update succeeds. -/
structure GitWorld where
  clone_ok : String → Bool
  fetch_ok : String → Bool
  resolve : String → String → Option String
  submodules_ok : String → Bool

/-- Mirrors enum CompilationError Git-side failure points of prepare_git. -/
inductive GitErr where
  | cloneFailed (url : String)
  | fetchFailed (url : String)
  | revspecNotFound (rev : String)
  | submoduleFailed
deriving DecidableEq

/-- The filesystem and git calls prepare_git performs, recorded as a trace. -/
inductive GAction where
  | removeDirAll
  | clone (url : String)
  | openRepo
  | fetch (url : String)
  | checkoutDetached (sha : String)
  | updateSubmodules
deriving DecidableEq

/-- Result, final path state and call trace of one prepare_git run. -/
structure GitOutcome where
  result : Except GitErr String
  state : PathState
  actions : List GAction

/-- Mirrors url_of_git_repository of src/main.rs: the origin URL of the
repository at the path, when one can be opened. -/
def url_of_git_repository : PathState → Option String
  | .repo origin _ => some origin
  | _ => none

/-- Whether the path exists on disk. -/
def path_exists : PathState → Bool
  | .absent => false
  | _ => true

/-- Tail of prepare_git after the repository is cloned or opened: fetch
master from origin, resolve the revspec, check out the tree with a detached
head, and update submodules recursively. -/
def prepare_git_fetch (w : GitWorld) (stR : PathState) (acts : List GAction)
    (url rev : String) : GitOutcome :=
  if w.fetch_ok url = false then
    ⟨.error (.fetchFailed url), stR, acts ++ [.fetch url]⟩
  else
    match w.resolve url rev with
    | none => ⟨.error (.revspecNotFound rev), stR, acts ++ [.fetch url]⟩
    | some sha =>
      if w.submodules_ok url = false then
        ⟨.error .submoduleFailed, .repo url (some sha),
          acts ++ [.fetch url, .checkoutDetached sha, .updateSubmodules]⟩
      else
        ⟨.ok sha, .repo url (some sha),
          acts ++ [.fetch url, .checkoutDetached sha, .updateSubmodules]⟩

/-- Mirrors prepare_git of src/main.rs over the explicit path state: erase
the path when it holds a repository with a different origin URL or a
non-repository directory, clone when the path is absent and open it
otherwise, then fetch, resolve, check out and update submodules. -/
def prepare_git (w : GitWorld) (st : PathState) (url rev : String) : GitOutcome :=
  match st with
  | .repo origin head =>
    if origin ≠ url then
      if w.clone_ok url then
        prepare_git_fetch w (.repo url none) [.removeDirAll, .clone url] url rev
      else ⟨.error (.cloneFailed url), .absent, [.removeDirAll, .clone url]⟩
    else
      prepare_git_fetch w (.repo origin head) [.openRepo] url rev
  | .nonRepoDir =>
    if w.clone_ok url then
      prepare_git_fetch w (.repo url none) [.removeDirAll, .clone url] url rev
    else ⟨.error (.cloneFailed url), .absent, [.removeDirAll, .clone url]⟩
  | .absent =>
    if w.clone_ok url then
      prepare_git_fetch w (.repo url none) [.clone url] url rev
    else ⟨.error (.cloneFailed url), .absent, [.clone url]⟩

/-- A filesystem path, as the list of its components below the root. -/
abbrev PathComps := List String

/-- Modelled from the spec: lexical resolution of dot and dot-dot components
as performed by the safe-path crate, whose source is not part of src.  A dot
component is dropped, a dot-dot component removes the last resolved
component, and any other component is appended. -/
def resolveDots (comps : PathComps) : PathComps :=
  comps.foldl
    (fun acc c =>
      if c == "." then acc
      else if c == ".." then acc.dropLast
      else acc ++ [c]) []

/-- Modelled from the spec: scoped_join of the safe-path crate, which is not
part of src.  Per the spec it returns a path guaranteed to be a descendant of
base after resolving dot-dot components, and fails otherwise. -/
def scoped_join (base untrusted : PathComps) :
    Except String PathComps :=
  if resolveDots (base ++ untrusted) ≠ base ∧
      base.isPrefixOf (resolveDots (base ++ untrusted)) then
    .ok (resolveDots (base ++ untrusted))
  else
    .error "path escapes base"

/-- Mirrors the input staging loop of exec_and_wait_inner of
src/execution.rs: for each upload carrying a raw file name, scoped_join the
name onto the canonicalized temp dir and persist the upload there; the first
scoped_join failure aborts the request.  The result lists the persisted
destinations and whether the loop completed. -/
def stageInputs (base : PathComps) (inputs : List (Option PathComps)) :
    List PathComps × Bool :=
  match inputs with
  | [] => ([], true)
  | none :: rest => stageInputs base rest
  | some fname :: rest =>
    match scoped_join base fname with
    | .ok dst =>
      ((stageInputs base rest).1.cons dst, (stageInputs base rest).2)
    | .error _ => ([], false)

/-- The value of the last entry of the association list carrying the key, the
value a Rust HashMap holds for the key after inserting the pairs in order
(each insert overwrites the previous value of its key). -/
def lastEntry : RunParams → String → Option ParamValue
  | [], _ => none
  | p :: rest, n =>
    match lastEntry rest n with
    | some v => some v
    | none => if p.1 = n then some p.2 else none

/-- Mirrors collecting an iterator of pairs into a Rust HashMap, as the
chain into collect call of exec_and_wait_inner of src/execution.rs does:
later pairs overwrite earlier ones with the same key; since the iteration
order of the map is unspecified and declared irrelevant, the embedding keeps
the last occurrence of each key. -/
def collectParams : RunParams → RunParams
  | [] => []
  | p :: rest =>
    if rest.any (fun q => q.1 == p.1) then collectParams rest
    else p :: collectParams rest

/-- Mirrors the parameter merge of exec_and_wait_inner of src/execution.rs:
the request parameters chained with the configured env_vars, collected into
one map where the configuration entries are inserted last. -/
def mergedParams (params env_vars : RunParams) : RunParams :=
  collectParams (params ++ env_vars)

/-- Claim C1: for every params map, demo_id and key, the environment vector
produced by to_env_vec begins with exactly IPOL_DEMOID=demo_id and
IPOL_KEY=key, and the remaining entries are exactly the formatted parameters
whose names pass the denylist filter: denylisted parameters are silently
dropped and every other parameter appears formatted per its tag. -/
theorem to_env_vec_spec (params : RunParams) (demo_id : DemoID) (key : RunKey) :
    (to_env_vec params demo_id key).take 2 =
      ["IPOL_DEMOID=" ++ demo_id, "IPOL_KEY=" ++ key] ∧
    ∀ e, e ∈ (to_env_vec params demo_id key).drop 2 ↔
      ∃ p, p ∈ params ∧ is_valid_param_name p.1 = true ∧
        e = p.1 ++ "=" ++ p.2.display := by
  refine ⟨rfl, fun e => ?_⟩
  show e ∈ (params.filter _).map _ ↔ _
  simp only [List.mem_map, List.mem_filter]
  constructor
  · rintro ⟨p, ⟨hp, hv⟩, he⟩
    exact ⟨p, hp, hv, he.symm⟩
  · rintro ⟨p, hp, hv, he⟩
    exact ⟨p, ⟨hp, hv⟩, he.symm⟩

/-- Witness for C1 at a concrete params map: a denylisted parameter (PATH) is
dropped and a plain parameter (x) appears as x=3. -/
theorem to_env_vec_spec_witness :
    (to_env_vec [("PATH", ParamValue.Str "evil"), ("x", ParamValue.PosInt 3)]
        "d01" "k01").take 2 = ["IPOL_DEMOID=d01", "IPOL_KEY=k01"] ∧
    ("x=3" ∈ (to_env_vec [("PATH", ParamValue.Str "evil"),
        ("x", ParamValue.PosInt 3)] "d01" "k01").drop 2 ↔
      ∃ p, p ∈ [("PATH", ParamValue.Str "evil"), ("x", ParamValue.PosInt 3)] ∧
        is_valid_param_name p.1 = true ∧ "x=3" = p.1 ++ "=" ++ p.2.display) :=
  ⟨(to_env_vec_spec [("PATH", ParamValue.Str "evil"), ("x", ParamValue.PosInt 3)]
      "d01" "k01").1,
   (to_env_vec_spec [("PATH", ParamValue.Str "evil"), ("x", ParamValue.PosInt 3)]
      "d01" "k01").2 "x=3"⟩

/-- Claim C2: an execution that exceeds its timeout (the deadline produces the
Timeout error) is surfaced with status KO, the short form IPOLTimeoutError in
the error field, the long form in algo_info.error_message, and no run_time. -/
theorem exec_timeout_envelope (key : RunKey) (params : RunParams) :
    exec_and_wait key params (.error .Timeout) =
      { key := key, params := params, status := "KO",
        error := "IPOLTimeoutError",
        algo_info := { error_message := "IPOLTimeoutError: Execution timeout",
                       run_time := none } } := rfl

/-- Claim C5: an execution whose command exits with a non-zero code is
surfaced with status KO, with error and algo_info.error_message both equal to
the string Non-zero exit code (N): followed by the combined stdout and stderr
captured in arrival order, and with no run_time. -/
theorem exec_nonzero_exit_envelope (key : RunKey) (params : RunParams)
    (st : ContainerState) (msgs : List LogChunk)
    (parse : String → Option Int) (now : Int) (code : Int)
    (hcode : st.exit_code = some code) (hnz : code ≠ 0) :
    exec_and_wait key params
        (classifyInspect ⟨some st⟩ (drainOutput msgs) parse now) =
      { key := key, params := params, status := "KO",
        error := "Non-zero exit code (" ++ toString code ++ "): " ++ drainOutput msgs,
        algo_info := { error_message := "Non-zero exit code (" ++ toString code ++ "): " ++ drainOutput msgs,
                       run_time := none } } := by
  simp only [classifyInspect, hcode, if_pos hnz]
  rfl

/-- Witness for C5: the seed case of the spec, exit code 5 with captured
output a followed by a newline. -/
theorem exec_nonzero_exit_envelope_witness :
    exec_and_wait "k01" []
        (classifyInspect ⟨some ⟨some 5, none, none⟩⟩
          (drainOutput [LogChunk.stdout "a\n"]) (fun _ => none) 0) =
      { key := "k01", params := [], status := "KO",
        error := "Non-zero exit code (5): " ++ drainOutput [LogChunk.stdout "a\n"],
        algo_info := { error_message := "Non-zero exit code (5): " ++ drainOutput [LogChunk.stdout "a\n"],
                       run_time := none } } :=
  exec_nonzero_exit_envelope "k01" [] ⟨some 5, none, none⟩
    [LogChunk.stdout "a\n"] (fun _ => none) 0 5 rfl (by decide)

/-- Claim C9: when the inspect response lacks a state, or its state lacks an
exit code, the run is treated as a clean success: the envelope is status OK
with an empty error and a present run_time, and when the state is absent the
reported duration is zero. -/
theorem inspect_missing_state_is_ok (key : RunKey) (params : RunParams)
    (resp : InspectResponse) (output : String)
    (parse : String → Option Int) (now : Int)
    (h : resp.state = none ∨
      ∃ st, resp.state = some st ∧ st.exit_code = none) :
    ∃ d, classifyInspect resp output parse now = .ok d ∧
      exec_and_wait key params (classifyInspect resp output parse now) =
        { key := key, params := params, status := "OK", error := "",
          algo_info := { error_message := "", run_time := some d } } ∧
      (resp.state = none → d = 0) := by
  rcases h with h | ⟨st, hst, hcode⟩
  · refine ⟨0, ?_, ?_, fun _ => rfl⟩
    · simp [classifyInspect, h]
    · simp [classifyInspect, h, exec_and_wait]
  · refine ⟨(durationOf st parse now).getD 0, ?_, ?_, ?_⟩
    · simp [classifyInspect, hst, hcode]
    · simp [classifyInspect, hst, hcode, exec_and_wait]
    · intro hnone
      rw [hst] at hnone
      exact absurd hnone (by simp)

/-- Witness for C9: a state with no exit code and no timestamps yields the OK
envelope with duration zero. -/
theorem inspect_missing_state_is_ok_witness :
    ∃ d, classifyInspect ⟨some ⟨none, none, none⟩⟩ "" (fun _ => none) 0
        = .ok d ∧
      exec_and_wait "k02" []
          (classifyInspect ⟨some ⟨none, none, none⟩⟩ "" (fun _ => none) 0) =
        { key := "k02", params := [], status := "OK", error := "",
          algo_info := { error_message := "", run_time := some d } } ∧
      ((⟨some ⟨none, none, none⟩⟩ : InspectResponse).state = none → d = 0) :=
  inspect_missing_state_is_ok "k02" [] ⟨some ⟨none, none, none⟩⟩ ""
    (fun _ => none) 0 (Or.inr ⟨⟨none, none, none⟩, rfl, rfl⟩)

/-- Outcome equation for the pipeline when the revision tag already exists. -/
lemma ensure_hit_case (images : List DockerImage) (pfx demo_id : String)
    (dockerfile git_rev : String) (msgs : List BuildMsg) (newId : String)
    (hguard : tagExists images (pfx ++ demo_id) git_rev = true) :
    ensure_compilation_inner images pfx demo_id dockerfile true git_rev msgs newId =
      ⟨.ok (), images,
        [.listImages,
         .appendLog ("(docker image already exists for commit " ++ git_rev ++ ")")]⟩ := by
  simp only [ensure_compilation_inner]
  rw [hguard]
  rfl

/-- Outcome equation for the pipeline when the tag is missing and the build
stream reports an error. -/
lemma ensure_miss_error_case (images : List DockerImage) (pfx demo_id : String)
    (dockerfile git_rev : String) (msgs : List BuildMsg) (newId : String)
    (hguard : tagExists images (pfx ++ demo_id) git_rev = false)
    (herr : buildErrored msgs = true) :
    ensure_compilation_inner images pfx demo_id dockerfile true git_rev msgs newId =
      ⟨.error (.BuildError (transcriptOf msgs)), images,
        [.listImages, .buildImage (pfx ++ demo_id, git_rev)]⟩ := by
  simp only [ensure_compilation_inner]
  rw [hguard, herr]
  rfl

/-- Outcome equation for the pipeline when the tag is missing and the build
stream reports no error. -/
lemma ensure_miss_build_case (images : List DockerImage) (pfx demo_id : String)
    (dockerfile git_rev : String) (msgs : List BuildMsg) (newId : String)
    (hguard : tagExists images (pfx ++ demo_id) git_rev = false)
    (herr : buildErrored msgs = false) :
    ensure_compilation_inner images pfx demo_id dockerfile true git_rev msgs newId =
      ⟨.ok (),
        retagLatest
          (removeListed (images ++ [imageBuilt (pfx ++ demo_id) git_rev newId])
            (images.filter (matchesReference (pfx ++ demo_id))))
          (pfx ++ demo_id) git_rev,
        [.listImages, .buildImage (pfx ++ demo_id, git_rev)]
          ++ (images.filter (matchesReference (pfx ++ demo_id))).map
              (fun c => .removeImage c.id)
          ++ [.tagImage (pfx ++ demo_id, git_rev) (pfx ++ demo_id, git_rev) "latest"]⟩ := by
  simp only [ensure_compilation_inner]
  rw [hguard, herr]
  rfl

/-- An image whose tags include the revision reference makes the early-exit
guard of the pipeline fire. -/
lemma ensure_guard_of_tagged (images : List DockerImage) (name git_rev : String)
    (img : DockerImage) (hmem : img ∈ images)
    (htag : (name, git_rev) ∈ img.repo_tags) :
    tagExists images name git_rev = true := by
  have hmatch : matchesReference name img = true :=
    List.any_eq_true.mpr ⟨(name, git_rev), htag, by simp⟩
  exact List.any_eq_true.mpr
    ⟨img, List.mem_filter.mpr ⟨hmem, hmatch⟩, by simpa using htag⟩

/-- An image whose id is not removed by the GC survives it. -/
lemma mem_removeListed (l current : List DockerImage) (img : DockerImage)
    (hmem : img ∈ l) (h : current.any (fun c => c.id == img.id) = false) :
    img ∈ removeListed l current := by
  unfold removeListed
  exact List.mem_filter.mpr ⟨hmem, by simp [h]⟩

/-- The retag step gives the image carrying the revision tag the latest tag. -/
lemma retagLatest_mem (l : List DockerImage) (name git_rev : String)
    (img : DockerImage) (hmem : img ∈ l)
    (hcont : img.repo_tags.contains (name, git_rev) = true) :
    ({ img with repo_tags := img.repo_tags ++ [(name, "latest")] }) ∈
      retagLatest l name git_rev := by
  unfold retagLatest
  have h := List.mem_map_of_mem (fun i : DockerImage =>
    if i.repo_tags.contains (name, git_rev) then
      { i with repo_tags := i.repo_tags ++ [(name, "latest")] }
    else i) hmem
  have hmem2 : (name, git_rev) ∈ img.repo_tags := by simpa using hcont
  simpa [hmem2] using h

/-- The freshness hypothesis makes the GC keep the newly built image. -/
lemma built_survives_gc (images : List DockerImage) (name git_rev newId : String)
    (hfresh : ∀ img ∈ images, img.id ≠ newId) :
    imageBuilt name git_rev newId ∈
      removeListed (images ++ [imageBuilt name git_rev newId])
        (images.filter (matchesReference name)) := by
  refine mem_removeListed _ _ _ (List.mem_append_right _ (by simp)) ?_
  rw [Bool.eq_false_iff]
  intro hany
  obtain ⟨c, hcf, hc⟩ := List.any_eq_true.mp hany
  exact hfresh c (List.mem_filter.mp hcf).1 (by simpa using hc)

/-- A successful pipeline run leaves an image carrying the revision tag. -/
lemma ensure_ok_has_rev_tag (images : List DockerImage) (pfx demo_id : String)
    (dockerfile git_rev : String) (msgs : List BuildMsg) (newId : String)
    (hfresh : ∀ img ∈ images, img.id ≠ newId)
    (hok : (ensure_compilation_inner images pfx demo_id dockerfile true git_rev
      msgs newId).result = .ok ()) :
    ∃ img, img ∈ (ensure_compilation_inner images pfx demo_id dockerfile true
      git_rev msgs newId).images ∧ (pfx ++ demo_id, git_rev) ∈ img.repo_tags := by
  by_cases hguard : tagExists images (pfx ++ demo_id) git_rev = true
  · rw [ensure_hit_case images pfx demo_id dockerfile git_rev msgs newId hguard]
    obtain ⟨img, hmemf, hcont⟩ := List.any_eq_true.mp hguard
    exact ⟨img, (List.mem_filter.mp hmemf).1, by simpa using hcont⟩
  · rw [Bool.not_eq_true] at hguard
    by_cases herr : buildErrored msgs = true
    · rw [ensure_miss_error_case images pfx demo_id dockerfile git_rev msgs newId
        hguard herr] at hok
      exact absurd hok (by simp)
    · rw [Bool.not_eq_true] at herr
      rw [ensure_miss_build_case images pfx demo_id dockerfile git_rev msgs newId
        hguard herr]
      refine ⟨_, retagLatest_mem _ _ _ _
        (built_survives_gc images (pfx ++ demo_id) git_rev newId hfresh)
        (by simp [imageBuilt]), ?_⟩
      simp [imageBuilt]

/-- Claim C3: the compilation pipeline is idempotent per (demo_id, rev).  If
any existing tag on the repository equals the revision tag, the run writes
the short note to the build log and succeeds without any build_image call;
and after one successful run (with a fresh engine id for the built image), a
second run for the same revision performs no build_image call and succeeds. -/
theorem ensure_compilation_idempotent
    (images : List DockerImage) (pfx demo_id dockerfile git_rev : String)
    (msgs msgs2 : List BuildMsg) (newId newId2 : String)
    (hfresh : ∀ img ∈ images, img.id ≠ newId) :
    ((∃ img, img ∈ images ∧ (pfx ++ demo_id, git_rev) ∈ img.repo_tags) →
      (ensure_compilation_inner images pfx demo_id dockerfile true git_rev msgs
        newId).result = .ok () ∧
      (CAction.appendLog ("(docker image already exists for commit " ++ git_rev ++ ")")
        ∈ (ensure_compilation_inner images pfx demo_id dockerfile true git_rev msgs
          newId).actions) ∧
      ∀ t, CAction.buildImage t ∉ (ensure_compilation_inner images pfx demo_id
        dockerfile true git_rev msgs newId).actions) ∧
    ((ensure_compilation_inner images pfx demo_id dockerfile true git_rev msgs
        newId).result = .ok () →
      (ensure_compilation_inner (ensure_compilation_inner images pfx demo_id
        dockerfile true git_rev msgs newId).images pfx demo_id dockerfile true
        git_rev msgs2 newId2).result = .ok () ∧
      ∀ t, CAction.buildImage t ∉ (ensure_compilation_inner
        (ensure_compilation_inner images pfx demo_id dockerfile true git_rev msgs
          newId).images pfx demo_id dockerfile true git_rev msgs2 newId2).actions) := by
  constructor
  · rintro ⟨img, hmem, htag⟩
    rw [ensure_hit_case images pfx demo_id dockerfile git_rev msgs newId
      (ensure_guard_of_tagged images (pfx ++ demo_id) git_rev img hmem htag)]
    exact ⟨rfl, by simp, fun t => by simp⟩
  · intro hok
    obtain ⟨img, hmem, htag⟩ := ensure_ok_has_rev_tag images pfx demo_id
      dockerfile git_rev msgs newId hfresh hok
    rw [ensure_hit_case _ pfx demo_id dockerfile git_rev msgs2 newId2
      (ensure_guard_of_tagged _ (pfx ++ demo_id) git_rev img hmem htag)]
    exact ⟨rfl, fun t => by simp⟩

/-- Witness for C3 at a concrete engine state holding the revision tag. -/
theorem ensure_compilation_idempotent_witness :
    (ensure_compilation_inner [⟨"id0", [("ipol-demo-t001", "sha1")]⟩]
      "ipol-demo-" "t001" "Dockerfile" true "sha1" [] "n1").result = .ok () ∧
    (CAction.appendLog "(docker image already exists for commit sha1)"
      ∈ (ensure_compilation_inner [⟨"id0", [("ipol-demo-t001", "sha1")]⟩]
        "ipol-demo-" "t001" "Dockerfile" true "sha1" [] "n1").actions) ∧
    ∀ t, CAction.buildImage t ∉ (ensure_compilation_inner
      [⟨"id0", [("ipol-demo-t001", "sha1")]⟩] "ipol-demo-" "t001" "Dockerfile"
      true "sha1" [] "n1").actions := by
  have h := ensure_compilation_idempotent [⟨"id0", [("ipol-demo-t001", "sha1")]⟩]
    "ipol-demo-" "t001" "Dockerfile" "sha1" [] [] "n1" "n1" (by decide)
  exact h.1 ⟨⟨"id0", [("ipol-demo-t001", "sha1")]⟩, by simp, by simp⟩

/-- Claim C4: after a successful compile that actually built (tag missing and
build stream clean), the revision tag and the latest tag sit on the same
image, no other tag of that repository remains in the engine, and the trace
shows the retag happening after the GC removals. -/
theorem ensure_compilation_retags_latest
    (images : List DockerImage) (pfx demo_id dockerfile git_rev : String)
    (msgs : List BuildMsg) (newId : String)
    (hfresh : ∀ img ∈ images, img.id ≠ newId)
    (hguard : tagExists images (pfx ++ demo_id) git_rev = false)
    (herr : buildErrored msgs = false) :
    (ensure_compilation_inner images pfx demo_id dockerfile true git_rev msgs
      newId).result = .ok () ∧
    (∃ img, img ∈ (ensure_compilation_inner images pfx demo_id dockerfile true
        git_rev msgs newId).images ∧
      (pfx ++ demo_id, git_rev) ∈ img.repo_tags ∧
      (pfx ++ demo_id, "latest") ∈ img.repo_tags) ∧
    (∀ img, img ∈ (ensure_compilation_inner images pfx demo_id dockerfile true
        git_rev msgs newId).images →
      ∀ t, t ∈ img.repo_tags → t.1 = pfx ++ demo_id →
        t = (pfx ++ demo_id, git_rev) ∨ t = (pfx ++ demo_id, "latest")) ∧
    (ensure_compilation_inner images pfx demo_id dockerfile true git_rev msgs
      newId).actions =
      [.listImages, .buildImage (pfx ++ demo_id, git_rev)]
        ++ (images.filter (matchesReference (pfx ++ demo_id))).map
            (fun c => .removeImage c.id)
        ++ [.tagImage (pfx ++ demo_id, git_rev) (pfx ++ demo_id, git_rev) "latest"] := by
  rw [ensure_miss_build_case images pfx demo_id dockerfile git_rev msgs newId
    hguard herr]
  refine ⟨rfl, ?_, ?_, rfl⟩
  · refine ⟨_, retagLatest_mem _ _ _ _
      (built_survives_gc images (pfx ++ demo_id) git_rev newId hfresh)
      (by simp [imageBuilt]), ?_, ?_⟩
    · simp [imageBuilt]
    · simp [imageBuilt]
  · intro img hmem t htag hrepo
    unfold retagLatest at hmem
    obtain ⟨img0, hmem0, himg⟩ := List.mem_map.mp hmem
    have hmem1 := (List.mem_filter.mp (by exact hmem0 : img0 ∈ List.filter _ _)).1
    have hkeep0 := (List.mem_filter.mp (by exact hmem0 : img0 ∈ List.filter _ _)).2
    rcases List.mem_append.mp hmem1 with hold | hnew
    · have hnotags : ∀ u ∈ img0.repo_tags, u.1 ≠ pfx ++ demo_id := by
        intro u hu hu1
        have hmatch : matchesReference (pfx ++ demo_id) img0 = true :=
          List.any_eq_true.mpr ⟨u, hu, by simp [hu1]⟩
        have hcur : img0 ∈ images.filter (matchesReference (pfx ++ demo_id)) :=
          List.mem_filter.mpr ⟨hold, hmatch⟩
        have hany : ((images.filter (matchesReference (pfx ++ demo_id))).any
            (fun c => c.id == img0.id)) = true :=
          List.any_eq_true.mpr ⟨img0, hcur, by simp⟩
        simp [hany] at hkeep0
      have hnomem : (pfx ++ demo_id, git_rev) ∉ img0.repo_tags := by
        intro hcont
        exact hnotags (pfx ++ demo_id, git_rev) hcont rfl
      have himg0 : img = img0 := by
        rw [← himg]
        simp [hnomem]
      rw [himg0] at htag
      exact absurd hrepo (hnotags t htag)
    · have hnew0 : img0 = imageBuilt (pfx ++ demo_id) git_rev newId := by
        simpa using hnew
      rw [hnew0] at himg
      have himgv : img = ⟨newId, [(pfx ++ demo_id, git_rev), (pfx ++ demo_id, "latest")]⟩ := by
        rw [← himg]
        simp [imageBuilt]
      rw [himgv] at htag
      simp at htag
      rcases htag with h | h
      · exact Or.inl (by simp [h])
      · exact Or.inr (by simp [h])

/-- Witness for C4 at an engine state holding one superseded image. -/
theorem ensure_compilation_retags_latest_witness :
    (ensure_compilation_inner [⟨"id0", [("ipol-demo-t001", "oldsha")]⟩]
      "ipol-demo-" "t001" "Dockerfile" true "sha2" [⟨some "step", none⟩]
      "n2").result = .ok () ∧
    (∃ img, img ∈ (ensure_compilation_inner
        [⟨"id0", [("ipol-demo-t001", "oldsha")]⟩] "ipol-demo-" "t001"
        "Dockerfile" true "sha2" [⟨some "step", none⟩] "n2").images ∧
      ("ipol-demo-t001", "sha2") ∈ img.repo_tags ∧
      ("ipol-demo-t001", "latest") ∈ img.repo_tags) ∧
    (ensure_compilation_inner [⟨"id0", [("ipol-demo-t001", "oldsha")]⟩]
      "ipol-demo-" "t001" "Dockerfile" true "sha2" [⟨some "step", none⟩]
      "n2").actions =
      [CAction.listImages, CAction.buildImage ("ipol-demo-t001", "sha2")]
        ++ (([⟨"id0", [("ipol-demo-t001", "oldsha")]⟩] :
            List DockerImage).filter (matchesReference "ipol-demo-t001")).map
            (fun c => CAction.removeImage c.id)
        ++ [CAction.tagImage ("ipol-demo-t001", "sha2") ("ipol-demo-t001", "sha2") "latest"] := by
  have h := ensure_compilation_retags_latest
    [⟨"id0", [("ipol-demo-t001", "oldsha")]⟩] "ipol-demo-" "t001" "Dockerfile"
    "sha2" [⟨some "step", none⟩] "n2" (by decide) (by decide) (by decide)
  exact ⟨h.1, h.2.1, h.2.2.2⟩

/-- Claim C6: when the build event stream contains an error event, the
pipeline returns BuildError carrying the full transcript, removes no image
and leaves the engine image list unchanged: the GC happens only after a
clean build. -/
theorem build_error_no_gc
    (images : List DockerImage) (pfx demo_id dockerfile git_rev : String)
    (msgs : List BuildMsg) (newId : String)
    (hguard : tagExists images (pfx ++ demo_id) git_rev = false)
    (herr : buildErrored msgs = true) :
    (ensure_compilation_inner images pfx demo_id dockerfile true git_rev msgs
      newId).result = .error (.BuildError (transcriptOf msgs)) ∧
    (ensure_compilation_inner images pfx demo_id dockerfile true git_rev msgs
      newId).images = images ∧
    ∀ i, CAction.removeImage i ∉ (ensure_compilation_inner images pfx demo_id
      dockerfile true git_rev msgs newId).actions := by
  rw [ensure_miss_error_case images pfx demo_id dockerfile git_rev msgs newId
    hguard herr]
  exact ⟨rfl, rfl, fun i => by simp⟩

/-- Witness for C6 with a one-message erroring build stream. -/
theorem build_error_no_gc_witness :
    (ensure_compilation_inner [] "ipol-demo-" "t001" "Dockerfile" true "sha3"
      [⟨some "step one ", some "boom"⟩] "n3").result =
        .error (.BuildError (transcriptOf [⟨some "step one ", some "boom"⟩])) ∧
    (ensure_compilation_inner [] "ipol-demo-" "t001" "Dockerfile" true "sha3"
      [⟨some "step one ", some "boom"⟩] "n3").images = [] ∧
    CAction.removeImage "id0" ∉ (ensure_compilation_inner [] "ipol-demo-" "t001"
      "Dockerfile" true "sha3" [⟨some "step one ", some "boom"⟩] "n3").actions := by
  have h := build_error_no_gc [] "ipol-demo-" "t001" "Dockerfile" "sha3"
    [⟨some "step one ", some "boom"⟩] "n3" (by decide) (by decide)
  exact ⟨h.1, h.2.1, h.2.2 "id0"⟩

/-- Actions already recorded survive the tail of prepare_git. -/
lemma prepare_git_fetch_actions_mem (w : GitWorld) (stR : PathState)
    (acts : List GAction) (url rev : String) (a : GAction) (ha : a ∈ acts) :
    a ∈ (prepare_git_fetch w stR acts url rev).actions := by
  unfold prepare_git_fetch
  split
  · simp [ha]
  · split
    · simp [ha]
    · split
      · simp [ha]
      · simp [ha]

/-- A successful prepare_git_fetch reports the resolved sha and leaves the
repository at the requested url with a detached head at that sha. -/
lemma prepare_git_fetch_ok (w : GitWorld) (stR : PathState) (acts : List GAction)
    (url rev sha : String)
    (hok : (prepare_git_fetch w stR acts url rev).result = .ok sha) :
    w.resolve url rev = some sha ∧
    (prepare_git_fetch w stR acts url rev).state = .repo url (some sha) := by
  cases hf : w.fetch_ok url with
  | false => simp [prepare_git_fetch, hf] at hok
  | true =>
    cases hres : w.resolve url rev with
    | none => simp [prepare_git_fetch, hf, hres] at hok
    | some sha2 =>
      cases hs : w.submodules_ok url with
      | false => simp [prepare_git_fetch, hf, hres, hs] at hok
      | true =>
        have h2 : sha2 = sha := by
          simpa [prepare_git_fetch, hf, hres, hs] using hok
        simp [prepare_git_fetch, hf, hres, hs, h2]

/-- A successful prepare_git reports the resolved sha and leaves the
repository at the requested url with a detached head at that sha. -/
lemma prepare_git_ok (w : GitWorld) (st : PathState) (url rev sha : String)
    (hok : (prepare_git w st url rev).result = .ok sha) :
    w.resolve url rev = some sha ∧
    (prepare_git w st url rev).state = .repo url (some sha) := by
  cases st with
  | repo origin head =>
    by_cases horig : origin = url
    · rw [show prepare_git w (.repo origin head) url rev =
          prepare_git_fetch w (.repo origin head) [.openRepo] url rev by
        simp [prepare_git, horig]] at hok ⊢
      exact prepare_git_fetch_ok w _ _ url rev sha hok
    · cases hc : w.clone_ok url with
      | true =>
        rw [show prepare_git w (.repo origin head) url rev =
            prepare_git_fetch w (.repo url none)
              [.removeDirAll, .clone url] url rev by
          simp [prepare_git, horig, hc]] at hok ⊢
        exact prepare_git_fetch_ok w _ _ url rev sha hok
      | false =>
        rw [show prepare_git w (.repo origin head) url rev =
            ⟨.error (.cloneFailed url), .absent,
              [.removeDirAll, .clone url]⟩ by
          simp [prepare_git, horig, hc]] at hok
        exact absurd hok (by simp)
  | nonRepoDir =>
    cases hc : w.clone_ok url with
    | true =>
      rw [show prepare_git w .nonRepoDir url rev =
          prepare_git_fetch w (.repo url none)
            [.removeDirAll, .clone url] url rev by
        simp [prepare_git, hc]] at hok ⊢
      exact prepare_git_fetch_ok w _ _ url rev sha hok
    | false =>
      rw [show prepare_git w .nonRepoDir url rev =
          ⟨.error (.cloneFailed url), .absent, [.removeDirAll, .clone url]⟩ by
        simp [prepare_git, hc]] at hok
      exact absurd hok (by simp)
  | absent =>
    cases hc : w.clone_ok url with
    | true =>
      rw [show prepare_git w .absent url rev =
          prepare_git_fetch w (.repo url none) [.clone url] url rev by
        simp [prepare_git, hc]] at hok ⊢
      exact prepare_git_fetch_ok w _ _ url rev sha hok
    | false =>
      rw [show prepare_git w .absent url rev =
          ⟨.error (.cloneFailed url), .absent, [.clone url]⟩ by
        simp [prepare_git, hc]] at hok
      exact absurd hok (by simp)

/-- Claim C7: prepare_git erases the path and reclones whenever a repository
with a different origin sits there or the path is not a repository; on
success it returns the sha the revspec resolves to and leaves a repository
whose origin is the requested url, so reconciling with URL A and then URL B
leaves a repository whose origin is B. -/
theorem prepare_git_reconciles_origin (w : GitWorld) (st : PathState)
    (url rev : String) :
    (((∃ origin head, st = .repo origin head ∧ origin ≠ url) ∨ st = .nonRepoDir) →
      GAction.removeDirAll ∈ (prepare_git w st url rev).actions ∧
      (w.clone_ok url = true → GAction.clone url ∈ (prepare_git w st url rev).actions)) ∧
    (∀ sha, (prepare_git w st url rev).result = .ok sha →
      w.resolve url rev = some sha ∧
      (prepare_git w st url rev).state = .repo url (some sha)) ∧
    (∀ url2 rev2 sha2,
      (prepare_git w (prepare_git w st url rev).state url2 rev2).result = .ok sha2 →
      (prepare_git w (prepare_git w st url rev).state url2 rev2).state =
        .repo url2 (some sha2)) := by
  refine ⟨?_, fun sha hok => prepare_git_ok w st url rev sha hok,
    fun url2 rev2 sha2 hok2 => (prepare_git_ok w _ url2 rev2 sha2 hok2).2⟩
  rintro (⟨origin, head, hst, hne⟩ | hst)
  · rw [hst]
    cases hc : w.clone_ok url with
    | true =>
      rw [show prepare_git w (.repo origin head) url rev =
          prepare_git_fetch w (.repo url none)
            [.removeDirAll, .clone url] url rev by
        simp [prepare_git, hne, hc]]
      exact ⟨prepare_git_fetch_actions_mem w _ _ url rev _ (by simp),
        fun _ => prepare_git_fetch_actions_mem w _ _ url rev _ (by simp)⟩
    | false =>
      rw [show prepare_git w (.repo origin head) url rev =
          ⟨.error (.cloneFailed url), .absent, [.removeDirAll, .clone url]⟩ by
        simp [prepare_git, hne, hc]]
      exact ⟨by simp, fun habs => by simp⟩
  · rw [hst]
    cases hc : w.clone_ok url with
    | true =>
      rw [show prepare_git w .nonRepoDir url rev =
          prepare_git_fetch w (.repo url none)
            [.removeDirAll, .clone url] url rev by
        simp [prepare_git, hc]]
      exact ⟨prepare_git_fetch_actions_mem w _ _ url rev _ (by simp),
        fun _ => prepare_git_fetch_actions_mem w _ _ url rev _ (by simp)⟩
    | false =>
      rw [show prepare_git w .nonRepoDir url rev =
          ⟨.error (.cloneFailed url), .absent, [.removeDirAll, .clone url]⟩ by
        simp [prepare_git, hc]]
      exact ⟨by simp, fun habs => by simp⟩

/-- Witness for C7: a friendly git world in which an URL switch from A to B
first erases and reclones, and the follow-up run on B succeeds with origin B. -/
theorem prepare_git_reconciles_origin_witness :
    (GAction.removeDirAll ∈ (prepare_git
        ⟨fun _ => true, fun _ => true, fun _ _ => some "shaB", fun _ => true⟩
        (.repo "urlA" none) "urlB" "master").actions ∧
      ((⟨fun _ => true, fun _ => true, fun _ _ => some "shaB", fun _ => true⟩ :
          GitWorld).clone_ok "urlB" = true →
        GAction.clone "urlB" ∈ (prepare_git
          ⟨fun _ => true, fun _ => true, fun _ _ => some "shaB", fun _ => true⟩
          (.repo "urlA" none) "urlB" "master").actions)) ∧
    ((⟨fun _ => true, fun _ => true, fun _ _ => some "shaB", fun _ => true⟩ :
        GitWorld).resolve "urlB" "master" = some "shaB" ∧
      (prepare_git ⟨fun _ => true, fun _ => true, fun _ _ => some "shaB", fun _ => true⟩
        (.repo "urlA" none) "urlB" "master").state = .repo "urlB" (some "shaB")) := by
  have h := prepare_git_reconciles_origin
    ⟨fun _ => true, fun _ => true, fun _ _ => some "shaB", fun _ => true⟩
    (.repo "urlA" none) "urlB" "master"
  exact ⟨h.1 (Or.inl ⟨"urlA", none, rfl, by decide⟩), h.2.1 "shaB" (by rfl)⟩

/-- The boolean component-wise check agrees with the prefix relation. -/
lemma isPrefixOf_eq_true_iff :
    ∀ (l1 l2 : PathComps), l1.isPrefixOf l2 = true ↔ l1 <+: l2
  | [], l2 => by simp [List.isPrefixOf]
  | a :: as, [] => by simp [List.isPrefixOf]
  | a :: as, b :: bs => by
    rw [show ((a :: as).isPrefixOf (b :: bs)) = (a == b && as.isPrefixOf bs)
      from rfl]
    rw [Bool.and_eq_true, beq_iff_eq, isPrefixOf_eq_true_iff as bs]
    exact List.cons_prefix_cons.symm

/-- A scoped_join success is a strict descendant of the base. -/
lemma scoped_join_ok_descendant (base untrusted p : PathComps)
    (h : scoped_join base untrusted = .ok p) :
    base <+: p ∧ p ≠ base := by
  unfold scoped_join at h
  split at h
  · rename_i hcond
    have hp : p = resolveDots (base ++ untrusted) := by
      cases h
      rfl
    rw [hp]
    exact ⟨(isPrefixOf_eq_true_iff base (resolveDots (base ++ untrusted))).mp
      hcond.2, hcond.1⟩
  · exact absurd h (by simp)

/-- Claim C8: every destination the staging loop persists is a strict
descendant of the per-request temp dir, and an input whose resolved path
escapes the base makes the request fail. -/
theorem staged_inputs_stay_in_base (base : PathComps)
    (inputs : List (Option PathComps)) :
    (∀ p, p ∈ (stageInputs base inputs).1 → base <+: p ∧ p ≠ base) ∧
    (∀ fname, some fname ∈ inputs →
      (∀ q, scoped_join base fname ≠ .ok q) →
      (stageInputs base inputs).2 = false) := by
  induction inputs with
  | nil =>
    exact ⟨fun p hp => absurd hp (by simp [stageInputs]),
      fun fname hmem _ => absurd hmem (by simp)⟩
  | cons i rest ih =>
    cases i with
    | none =>
      refine ⟨fun p hp => ih.1 p (by simpa [stageInputs] using hp),
        fun fname hmem hbad => ?_⟩
      have : some fname ∈ rest := by simpa using hmem
      simpa [stageInputs] using ih.2 fname this hbad
    | some fname0 =>
      cases hj : scoped_join base fname0 with
      | ok dst =>
        constructor
        · intro p hp
          rw [show stageInputs base (some fname0 :: rest) =
              ((stageInputs base rest).1.cons dst,
               (stageInputs base rest).2) by
            simp [stageInputs, hj]] at hp
          rcases List.mem_cons.mp hp with hdst | htail
          · rw [hdst]
            exact scoped_join_ok_descendant base fname0 dst hj
          · exact ih.1 p htail
        · intro fname hmem hbad
          rcases List.mem_cons.mp hmem with hhead | htail
          · have : fname0 = fname := by
              injection hhead.symm
            rw [← this] at hbad
            exact absurd hj (by simpa using hbad dst)
          · rw [show stageInputs base (some fname0 :: rest) =
                ((stageInputs base rest).1.cons dst,
                 (stageInputs base rest).2) by
              simp [stageInputs, hj]]
            exact ih.2 fname htail hbad
      | error e =>
        refine ⟨fun p hp => ?_, fun fname hmem hbad => ?_⟩
        · rw [show stageInputs base (some fname0 :: rest) = ([], false) by
            simp [stageInputs, hj]] at hp
          exact absurd hp (by simp)
        · rw [show stageInputs base (some fname0 :: rest) = ([], false) by
            simp [stageInputs, hj]]

/-- Witness for C8: a well-behaved upload lands strictly below the temp dir,
and a dot-dot traversal attempt makes the request fail. -/
theorem staged_inputs_stay_in_base_witness :
    (["tmp", "req1"] <+:
        (stageInputs ["tmp", "req1"] [some ["img.png"]]).1.headD [] ∧
      (stageInputs ["tmp", "req1"] [some ["img.png"]]).1.headD [] ≠
        ["tmp", "req1"]) ∧
    (stageInputs ["tmp", "req1"]
      [some ["..", "..", "etc", "passwd"]]).2 = false := by
  constructor
  · exact (staged_inputs_stay_in_base ["tmp", "req1"] [some ["img.png"]]).1
      (["tmp", "req1", "img.png"]) (by decide)
  · refine (staged_inputs_stay_in_base ["tmp", "req1"]
      [some ["..", "..", "etc", "passwd"]]).2 ["..", "..", "etc", "passwd"]
      (by decide) (fun q h => ?_)
    rw [show scoped_join ["tmp", "req1"] ["..", "..", "etc", "passwd"] =
      Except.error "path escapes base" from rfl] at h
    exact Except.noConfusion h

/-- A key without a last entry occurs nowhere in the list. -/
lemma lastEntry_eq_none (l : RunParams) (n : String)
    (h : lastEntry l n = none) : ∀ q ∈ l, q.1 ≠ n := by
  induction l with
  | nil => intro q hq; exact absurd hq (by simp)
  | cons p rest ih =>
    intro q hq
    unfold lastEntry at h
    cases hrest : lastEntry rest n with
    | some v => rw [hrest] at h; exact absurd h (by simp)
    | none =>
      rw [hrest] at h
      rcases List.mem_cons.mp hq with hhead | htail
      · intro hn
        rw [hhead] at hn
        rw [if_pos hn] at h
        exact absurd h (by simp)
      · exact ih hrest q htail

/-- The entry of the last occurrence of a key survives collection. -/
lemma mem_collectParams_of_lastEntry (l : RunParams) (n : String)
    (v : ParamValue) (h : lastEntry l n = some v) :
    (n, v) ∈ collectParams l := by
  induction l with
  | nil => exact absurd h (by simp [lastEntry])
  | cons p rest ih =>
    unfold lastEntry at h
    cases hrest : lastEntry rest n with
    | some w =>
      rw [hrest] at h
      have hw : w = v := by simpa using h
      rw [hw] at hrest
      unfold collectParams
      by_cases hdup : rest.any (fun q => q.1 == p.1) = true
      · rw [if_pos hdup]
        exact ih hrest
      · rw [if_neg hdup]
        exact List.mem_cons_of_mem p (ih hrest)
    | none =>
      rw [hrest] at h
      by_cases hpn : p.1 = n
      · rw [if_pos hpn] at h
        have hv : p.2 = v := by simpa using h
        unfold collectParams
        by_cases hdup : rest.any (fun q => q.1 == p.1) = true
        · obtain ⟨q, hqmem, hq⟩ := List.any_eq_true.mp hdup
          have hq2 : q.1 = p.1 := by simpa using hq
          exact absurd (hpn ▸ hq2) (lastEntry_eq_none rest n hrest q hqmem)
        · rw [if_neg hdup]
          have hp : p = (n, v) := Prod.ext hpn hv
          rw [← hp]
          exact List.mem_cons_self p (collectParams rest)
      · rw [if_neg hpn] at h
        exact absurd h (by simp)

/-- Collection only keeps entries of the original list. -/
lemma mem_of_mem_collectParams (l : RunParams) (q : String × ParamValue)
    (h : q ∈ collectParams l) : q ∈ l := by
  induction l with
  | nil => exact absurd h (by simp [collectParams])
  | cons p rest ih =>
    unfold collectParams at h
    by_cases hdup : rest.any (fun r => r.1 == p.1) = true
    · rw [if_pos hdup] at h
      exact List.mem_cons_of_mem p (ih h)
    · rw [if_neg hdup] at h
      rcases List.mem_cons.mp h with hhead | htail
      · exact hhead ▸ List.mem_cons_self p rest
      · exact List.mem_cons_of_mem p (ih htail)

/-- The keys of a collected list are pairwise distinct. -/
lemma collectParams_keys_nodup (l : RunParams) :
    (collectParams l).Pairwise (fun a b => a.1 ≠ b.1) := by
  induction l with
  | nil => simp [collectParams]
  | cons p rest ih =>
    unfold collectParams
    by_cases hdup : rest.any (fun q => q.1 == p.1) = true
    · rw [if_pos hdup]
      exact ih
    · rw [if_neg hdup]
      refine List.Pairwise.cons (fun q hq hpq => ?_) ih
      have hqrest := mem_of_mem_collectParams rest q hq
      exact hdup (List.any_eq_true.mpr ⟨q, hqrest, by simp [hpq]⟩)

/-- A key occurs at most once in a list with pairwise distinct keys. -/
lemma value_unique_of_keys_nodup (l : RunParams) (n : String)
    (v w : ParamValue) (hnd : l.Pairwise (fun a b => a.1 ≠ b.1))
    (hv : (n, v) ∈ l) (hw : (n, w) ∈ l) : w = v := by
  induction l with
  | nil => exact absurd hv (by simp)
  | cons p rest ih =>
    have hnd2 := List.pairwise_cons.mp hnd
    rcases List.mem_cons.mp hv with hv1 | hv2
    · rcases List.mem_cons.mp hw with hw1 | hw2
      · rw [← hv1] at hw1
        exact (Prod.ext_iff.mp hw1).2
      · exact absurd rfl (hv1 ▸ hnd2.1 (n, w) hw2)
    · rcases List.mem_cons.mp hw with hw1 | hw2
      · exact absurd rfl (hw1 ▸ hnd2.1 (n, v) hv2)
      · exact ih hnd2.2 hv2 hw2

/-- A key occurring nowhere has no last entry. -/
lemma lastEntry_none_of_no_key (l : RunParams) (n : String)
    (h : ∀ q ∈ l, q.1 ≠ n) : lastEntry l n = none := by
  induction l with
  | nil => rfl
  | cons p rest ih =>
    unfold lastEntry
    rw [ih (fun q hq => h q (List.mem_cons_of_mem p hq))]
    rw [if_neg (h p (List.mem_cons_self p rest))]

/-- The last entry of an appended list prefers the second list. -/
lemma lastEntry_append (A B : RunParams) (n : String) :
    lastEntry (A ++ B) n =
      match lastEntry B n with
      | some v => some v
      | none => lastEntry A n := by
  induction A with
  | nil =>
    show lastEntry B n = _
    cases hB : lastEntry B n <;> rfl
  | cons p rest ih =>
    show (match lastEntry (rest ++ B) n with
      | some v => some v
      | none => if p.1 = n then some p.2 else none) = _
    rw [ih]
    cases hB : lastEntry B n with
    | some v => rfl
    | none =>
      show _ = lastEntry (p :: rest) n
      rw [show lastEntry (p :: rest) n =
        (match lastEntry rest n with
          | some v => some v
          | none => if p.1 = n then some p.2 else none) from rfl]

/-- A member of a list with pairwise distinct keys is its last entry. -/
lemma lastEntry_of_mem_nodup (l : RunParams) (n : String) (v : ParamValue)
    (hmem : (n, v) ∈ l) (hnd : l.Pairwise (fun a b => a.1 ≠ b.1)) :
    lastEntry l n = some v := by
  induction l with
  | nil => exact absurd hmem (by simp)
  | cons p rest ih =>
    have hnd2 := List.pairwise_cons.mp hnd
    rcases List.mem_cons.mp hmem with hhead | htail
    · have hp1 : p.1 = n := (congrArg Prod.fst hhead).symm
      have hrest : lastEntry rest n = none :=
        lastEntry_none_of_no_key rest n
          (fun q hq hqn => (hnd2.1 q hq) (hp1.trans hqn.symm))
      unfold lastEntry
      rw [hrest, if_pos hp1, ← hhead]
    · unfold lastEntry
      rw [ih htail hnd2.2]

/-- Claim C10: when a configured env_vars entry shares its name with a
request parameter, the configured value is the one the merged map holds and
the one lowered into the container environment, because the request
parameters are chained with env_vars into one map where the configuration
entries are inserted last. -/
theorem env_vars_override_params (params env_vars : RunParams)
    (demo_id : DemoID) (key : RunKey) (n : String) (v : ParamValue)
    (hmem : (n, v) ∈ env_vars)
    (hnd : env_vars.Pairwise (fun a b => a.1 ≠ b.1)) :
    (n, v) ∈ mergedParams params env_vars ∧
    (∀ w, (n, w) ∈ mergedParams params env_vars → w = v) ∧
    (is_valid_param_name n = true →
      (n ++ "=" ++ v.display) ∈
        to_env_vec (mergedParams params env_vars) demo_id key) := by
  have hlastB : lastEntry env_vars n = some v :=
    lastEntry_of_mem_nodup env_vars n v hmem hnd
  have hlast : lastEntry (params ++ env_vars) n = some v := by
    rw [lastEntry_append, hlastB]
  have hm : (n, v) ∈ mergedParams params env_vars :=
    mem_collectParams_of_lastEntry _ n v hlast
  refine ⟨hm, fun w hw => value_unique_of_keys_nodup _ n v w
    (collectParams_keys_nodup _) hm hw, fun hvalid => ?_⟩
  unfold to_env_vec
  apply List.mem_cons_of_mem
  apply List.mem_cons_of_mem
  exact List.mem_map.mpr
    ⟨(n, v), List.mem_filter.mpr ⟨hm, by simpa using hvalid⟩, rfl⟩

/-- Witness for C10: the caller sends x=1, the configuration sets x=2, and
the merged map and the environment carry the configured value 2. -/
theorem env_vars_override_params_witness :
    ("x", ParamValue.PosInt 2) ∈
      mergedParams [("x", ParamValue.PosInt 1)] [("x", ParamValue.PosInt 2)] ∧
    ("x=2" ∈ to_env_vec
      (mergedParams [("x", ParamValue.PosInt 1)] [("x", ParamValue.PosInt 2)])
      "d01" "k01") := by
  have h := env_vars_override_params [("x", ParamValue.PosInt 1)]
    [("x", ParamValue.PosInt 2)] "d01" "k01" "x" (ParamValue.PosInt 2)
    (by simp) (by simp)
  exact ⟨h.1, h.2.2 (by decide)⟩

end DemoRunner
